import Mathlib

/-!
A verification development for the BVH4i node-encoding core
(`kernels/xeonphi/bvh4i/bvh4i.h`).

The embedding below models:
* 32-bit `NodeRef` values as natural numbers reduced modulo `2^32` where
  overflow matters, together with the bit-level predicates of the header
  (`isLeaf`, `isNode`, `items`, `offset`, `offsetIndex`, `nodeID`);
* IEEE-754 single-precision values as exact rationals extended with the two
  infinities and NaN (type `EF`).  Arithmetic on `EF` follows the IEEE rules
  for special values; finite arithmetic is exact (no rounding), and the one
  place where the hardware rounds, the float-to-byte down-conversion of the
  quantized node builder, is modelled explicitly by `EF.toByte`;
* the `Node` and `QuantizedNode` structures with their operations
  (`bounds`, `setBounds`, `setInvalid`, `child`, `QuantizedNode.init`);
* the container `BVH4i` and the triangle-leaf packing helper
  `initTriangle1`.
-/

/-! ### Extended rational model of IEEE-754 float values -/

/-- An IEEE-754 value: NaN, +inf, -inf, or a finite value modelled as an
exact rational (signed zero is not distinguished; it plays no role in the
computations verified here). -/
inductive EF where
  | nan : EF
  | pinf : EF
  | ninf : EF
  | fin : ℚ → EF
deriving DecidableEq

namespace EF

/-- IEEE negation. -/
def neg : EF → EF
  | nan => nan
  | pinf => ninf
  | ninf => pinf
  | fin a => fin (-a)

/-- IEEE addition (exact on finite values). -/
def add : EF → EF → EF
  | nan, _ => nan
  | _, nan => nan
  | pinf, ninf => nan
  | ninf, pinf => nan
  | pinf, _ => pinf
  | _, pinf => pinf
  | ninf, _ => ninf
  | _, ninf => ninf
  | fin a, fin b => fin (a + b)

/-- IEEE subtraction. -/
def sub (a b : EF) : EF := add a (neg b)

/-- IEEE multiplication (exact on finite values); `inf * 0 = NaN`. -/
def mul : EF → EF → EF
  | nan, _ => nan
  | _, nan => nan
  | pinf, pinf => pinf
  | pinf, ninf => ninf
  | ninf, pinf => ninf
  | ninf, ninf => pinf
  | pinf, fin b => if b = 0 then nan else if 0 < b then pinf else ninf
  | ninf, fin b => if b = 0 then nan else if 0 < b then ninf else pinf
  | fin a, pinf => if a = 0 then nan else if 0 < a then pinf else ninf
  | fin a, ninf => if a = 0 then nan else if 0 < a then ninf else pinf
  | fin a, fin b => fin (a * b)

/-- IEEE division (exact on finite values); `x/0 = ±inf` for finite
nonzero `x` (the zero divisor is treated as +0), `0/0 = NaN`,
`inf/inf = NaN`, `x/inf = 0`. -/
def div : EF → EF → EF
  | nan, _ => nan
  | _, nan => nan
  | pinf, pinf => nan
  | pinf, ninf => nan
  | ninf, pinf => nan
  | ninf, ninf => nan
  | pinf, fin b => if 0 ≤ b then pinf else ninf
  | ninf, fin b => if 0 ≤ b then ninf else pinf
  | fin _, pinf => fin 0
  | fin _, ninf => fin 0
  | fin a, fin b =>
      if b = 0 then (if a = 0 then nan else if 0 < a then pinf else ninf)
      else fin (a / b)

/-- IEEE ordered less-than: any comparison with NaN is false. -/
def lt : EF → EF → Bool
  | nan, _ => false
  | _, nan => false
  | ninf, ninf => false
  | ninf, _ => true
  | _, ninf => false
  | pinf, _ => false
  | fin _, pinf => true
  | fin a, fin b => decide (a < b)

/-- IEEE ordered less-or-equal: any comparison with NaN is false. -/
def le : EF → EF → Bool
  | nan, _ => false
  | _, nan => false
  | ninf, _ => true
  | _, ninf => false
  | _, pinf => true
  | pinf, _ => false
  | fin a, fin b => decide (a ≤ b)

/-- Lanewise minimum as computed by the vector min instruction:
`min(a,b) = a < b ? a : b`. -/
def fmin (a b : EF) : EF := if lt a b = true then a else b

/-- Lanewise maximum as computed by the vector max instruction:
`max(a,b) = a < b ? b : a`. -/
def fmax (a b : EF) : EF := if lt a b = true then b else a

/-- IEEE equality comparison (as used by the lanewise `eq` mask):
NaN compares unequal to everything, including itself. -/
def feq : EF → EF → Bool
  | pinf, pinf => true
  | ninf, ninf => true
  | fin a, fin b => decide (a = b)
  | _, _ => false

/-- `true` exactly on finite values. -/
def isFin : EF → Bool
  | fin _ => true
  | _ => false

/-- Modelled from the spec: the float-to-unsigned-8-bit down-conversion
performed by `compactustore16f_low_uint8` (the SIMD helper is not part of
this header).  Values are rounded to the nearest integer and clamped to
`[0,255]`; NaN converts to 0.  (The ±0.5 offsets the encoder applies before
this conversion are what make the stored byte err outward, per §4.3 of the
spec.) -/
def toByte : EF → ℕ
  | nan => 0
  | pinf => 255
  | ninf => 0
  | fin q => min (Int.toNat ⌊q + 1/2⌋) 255

end EF

/-! ### NodeRef: the 32-bit tagged reference -/

/-- `static const unsigned int encodingBits = 4`. -/
def encodingBits : ℕ := 4

/-- `static const unsigned int offset_mask = 0xFFFFFFFF << encodingBits`
(a 32-bit unsigned computation, hence truncated modulo `2^32`). -/
def offset_mask : ℕ := (0xFFFFFFFF <<< encodingBits) % 2 ^ 32

/-- `static const unsigned int leaf_shift = 3`. -/
def leaf_shift : ℕ := 3

/-- `static const unsigned int leaf_mask = 1 << leaf_shift`. -/
def leaf_mask : ℕ := 1 <<< leaf_shift

/-- `static const unsigned int items_mask = leaf_mask - 1`. -/
def items_mask : ℕ := leaf_mask - 1

/-- `static const unsigned int emptyNode = leaf_mask`. -/
def emptyNode : ℕ := leaf_mask

/-- `static const unsigned int invalidNode = (unsigned int)-1`. -/
def invalidNode : ℕ := 2 ^ 32 - 1

/-- Size in bytes of `BVH4i::Node`: two arrays of four 16-byte
`NodeStruct` records (`float x,y,z; NodeRef child`). -/
def sizeofNode : ℕ := 128

namespace NodeRef

/-- `isLeaf(): return _id & leaf_mask` (an unsigned value, nonzero ⇒ leaf). -/
def isLeaf (v : ℕ) : ℕ := v &&& leaf_mask

/-- `isNode(): return (_id & leaf_mask) == 0`. -/
def isNode (v : ℕ) : Bool := v &&& leaf_mask == 0

/-- `nodeID(): return (_id*2) / sizeof(Node)` (the 32-bit multiplication
wraps modulo `2^32`). -/
def nodeID (v : ℕ) : ℕ := v * 2 % 2 ^ 32 / sizeofNode

/-- `offset(): return _id & offset_mask`. -/
def offset (v : ℕ) : ℕ := v &&& offset_mask

/-- `offsetIndex(): return _id >> encodingBits`. -/
def offsetIndex (v : ℕ) : ℕ := v >>> encodingBits

/-- `items(): return _id & items_mask`. -/
def items (v : ℕ) : ℕ := v &&& items_mask

end NodeRef

/-- Modelled from the spec: the leaf encoder `makeLeaf` is not part of this
header; §4.1 specifies the encoding `(offset << 4) | leaf_mask | count`. -/
def encodeLeaf (offset count : ℕ) : ℕ := (offset <<< 4) ||| leaf_mask ||| count

/-- Modelled from the spec: `makeLeaf(offset, count)` debug-asserts that
`count ∈ [0,7]` and that the offset fits in 28 bits; a failed assertion is
modelled as `none`. -/
def makeLeaf (offset count : ℕ) : Option ℕ :=
  if count ≤ 7 ∧ offset < 2 ^ 28 then some (encodeLeaf offset count) else none

/-- Modelled from the spec: the internal-node encoder `makeInternal` is not
part of this header; §4.1 specifies that the offset is encoded as-is. -/
def makeInternal (offset : ℕ) : ℕ := offset

/-! ### Node: the full-precision 4-wide node -/

/-- One element of the two parallel arrays of a `Node`:
`struct NodeStruct { float x,y,z; NodeRef child; }`. -/
structure NodeStruct where
  x : EF
  y : EF
  z : EF
  child : ℕ
deriving DecidableEq

/-- A 3-component float vector (`Vec3fa`, ignoring its padding lane). -/
structure Vec3 where
  x : EF
  y : EF
  z : EF
deriving DecidableEq

/-- `BBox3fa`: an axis-aligned box given by its two corners. -/
structure BBox where
  lower : Vec3
  upper : Vec3
deriving DecidableEq

/-- `BVH4i::Node`: two parallel 4-element arrays `lower[4]`, `upper[4]`. -/
structure Node where
  lower : Fin 4 → NodeStruct
  upper : Fin 4 → NodeStruct

namespace Node

/-- `bounds(i)`: the box formed from `lower[i].xyz` and `upper[i].xyz`. -/
def bounds (n : Node) (i : Fin 4) : BBox :=
  ⟨⟨(n.lower i).x, (n.lower i).y, (n.lower i).z⟩,
   ⟨(n.upper i).x, (n.upper i).y, (n.upper i).z⟩⟩

/-- `setBounds(i, b)`: writes the six coordinate fields of slot `i`;
the two `child` fields of slot `i` and all other slots are untouched. -/
def setBounds (n : Node) (i : Fin 4) (b : BBox) : Node :=
  { lower := fun j => if j = i then
      { n.lower j with x := b.lower.x, y := b.lower.y, z := b.lower.z }
      else n.lower j,
    upper := fun j => if j = i then
      { n.upper j with x := b.upper.x, y := b.upper.y, z := b.upper.z }
      else n.upper j }

/-- `child(i)`: reference to child `i`, stored in `lower[i].child`. -/
def child (n : Node) (i : Fin 4) : ℕ := (n.lower i).child

/-- Assignment through the `child(i)` accessor: `child(i) = r` writes
`lower[i].child`. -/
def setChild (n : Node) (i : Fin 4) (r : ℕ) : Node :=
  { n with lower := fun j => if j = i then { n.lower j with child := r }
      else n.lower j }

/-- `setInvalid(i)`: writes the sentinel pattern
`lower[i] = (+inf,+inf,+inf, invalidNode)`, `upper[i] = (-inf,-inf,-inf, NodeRef(0))`. -/
def setInvalid (n : Node) (i : Fin 4) : Node :=
  { lower := fun j => if j = i then ⟨EF.pinf, EF.pinf, EF.pinf, invalidNode⟩
      else n.lower j,
    upper := fun j => if j = i then ⟨EF.ninf, EF.ninf, EF.ninf, 0⟩
      else n.upper j }

end Node

/-! ### QuantizedNode and its construction

The 16-lane SIMD computations of `QuantizedNode::init` act independently on
the lanes `4*i + a` for child `i < 4` and axis `a < 3` (the mask `0x7777`
excludes every fourth lane, and no operation mixes lanes).  The embedding
therefore records, per axis, the lanes of the four children: `axisInit`
below is the lane computation of `init` restricted to one axis, and the
quantized node stores the three per-axis results plus the four child
references. -/

/-- The per-axis slice of a quantized node: the `start`/`diff` lane of the
shared affine map and the four quantized corner bytes for that axis. -/
structure AxisQ where
  start : EF
  diff : EF
  qlo : Fin 4 → ℕ
  qhi : Fin 4 → ℕ

/-- One axis of `QuantizedNode::init`: `l i` / `u i` are the lower/upper
lanes of child `i` on this axis.  Mirrors the source line by line:
`minXYZ`/`maxXYZ` reductions, `diffXYZ`, `rcp_diffXYZ = 255/diffXYZ`,
the `isInvalid` lane mask (`lower == +inf`), the select of `minXYZ` for
invalid lanes, the `±0.5` conservative offsets, the byte down-conversion,
and the stored `start = minXYZ`, `diff = diffXYZ * (1/255)`. -/
def axisInit (l u : Fin 4 → EF) : AxisQ :=
  let minA := EF.fmin (EF.fmin (l 0) (l 1)) (EF.fmin (l 2) (l 3))
  let maxA := EF.fmax (EF.fmax (u 0) (u 1)) (EF.fmax (u 2) (u 3))
  let diffA := EF.sub maxA minA
  let rcp := EF.div (EF.fin 255) diffA
  let nl := fun i => if EF.feq (l i) EF.pinf = true then minA else l i
  let nu := fun i => if EF.feq (l i) EF.pinf = true then minA else u i
  let lo := fun i => EF.sub (EF.mul (EF.sub (nl i) minA) rcp) (EF.fin (1/2))
  let hi := fun i => EF.add (EF.mul (EF.sub (nu i) minA) rcp) (EF.fin (1/2))
  ⟨minA, EF.mul diffA (EF.fin (1/255)),
   fun i => (lo i).toByte, fun i => (hi i).toByte⟩

/-- `BVH4i::QuantizedNode`, organised as its three per-axis slices plus the
four child references copied from the source node. -/
structure QuantizedNode where
  qx : AxisQ
  qy : AxisQ
  qz : AxisQ
  child0 : ℕ
  child1 : ℕ
  child2 : ℕ
  child3 : ℕ

/-- `decompress_lowerXYZ`: `start + diff * lowerQ` on one axis/child. -/
def decompLo (a : AxisQ) (i : Fin 4) : EF :=
  EF.add a.start (EF.mul a.diff (EF.fin ((a.qlo i : ℕ) : ℚ)))

/-- `decompress_upperXYZ`: `start + diff * upperQ` on one axis/child. -/
def decompHi (a : AxisQ) (i : Fin 4) : EF :=
  EF.add a.start (EF.mul a.diff (EF.fin ((a.qhi i : ℕ) : ℚ)))

/-- `QuantizedNode::init(node)`: quantizes the four child boxes of `node`
(lanewise, see `axisInit`) and copies the four child references. -/
def QuantizedNode.init (n : Node) : QuantizedNode :=
  ⟨axisInit (fun i => (n.lower i).x) (fun i => (n.upper i).x),
   axisInit (fun i => (n.lower i).y) (fun i => (n.upper i).y),
   axisInit (fun i => (n.lower i).z) (fun i => (n.upper i).z),
   n.child 0, n.child 1, n.child 2, n.child 3⟩

/-- `QuantizedNode::bounds(i)`: the box formed from the decompressed lower
and upper corners of child `i`. -/
def QuantizedNode.bounds (q : QuantizedNode) (i : Fin 4) : BBox :=
  ⟨⟨decompLo q.qx i, decompLo q.qy i, decompLo q.qz i⟩,
   ⟨decompHi q.qx i, decompHi q.qy i, decompHi q.qz i⟩⟩

/-! ### The BVH4i container -/

/-- `class BVH4i`: root reference, primitive-type descriptor and geometry
back-reference (opaque here), the two buffers (`none` models a null
pointer) and their byte counters. -/
structure BVH4i where
  root : ℕ
  primTy : ℕ
  geometry : Option ℕ
  qbvh : Option ℕ
  accel : Option ℕ
  size_node : ℕ
  size_accel : ℕ

/-- The `BVH4i(primTy, geometry)` constructor: `root(emptyNode)`,
`qbvh(NULL)`, `accel(NULL)`, `size_node(0)`, `size_accel(0)`. -/
def BVH4i.make (primTy : ℕ) (geometry : Option ℕ) : BVH4i :=
  ⟨emptyNode, primTy, geometry, none, none, 0, 0⟩

/-- `bytes(): return size_node + size_accel`. -/
def BVH4i.bytes (b : BVH4i) : ℕ := b.size_node + b.size_accel

/-! ### Triangle leaf packing (`initTriangle1`)

A `mic_f` register is modelled as a lane-indexed family of rationals; a
`mic_i` as a family of naturals.  Lanes carrying a reinterpreted integer
bit pattern (the `cast` of `geomID`/`primID`/`mask` into float lanes) are
distinguished from genuine float lanes by the `Lane` sum type. -/

/-- A lane of a SIMD register holding either a float value or the bit
pattern of a 32-bit integer reinterpreted as a float lane. -/
inductive Lane where
  | flt : ℚ → Lane
  | bits : ℕ → Lane
deriving DecidableEq

/-- The lane mask `0x8888`: bit `i` is set exactly when `i % 4 == 3`
(every fourth lane). -/
def mask8888 (i : ℕ) : Bool := i % 4 == 3

/-- Modelled from the spec: the lanewise blend `select(mask, a, b)` of the
SIMD layer (not part of this header) — mask-set lanes come from `a`,
the rest from `b`. -/
def selectLane (mask : ℕ → Bool) (a b : ℕ → Lane) : ℕ → Lane :=
  fun i => if mask i then a i else b i

/-- Modelled from the spec: `lcross_xyz(a,b)` (not part of this header)
computes, in each group of four lanes, the cross product of the two
3-vectors held in the group's first three lanes; the fourth lane of each
group is irrelevant downstream (it is always blended away) and is
modelled as 0. -/
def lcross_xyz (a b : ℕ → ℚ) : ℕ → ℚ := fun i =>
  let g := 4 * (i / 4)
  match i % 4 with
  | 0 => a (g + 1) * b (g + 2) - a (g + 2) * b (g + 1)
  | 1 => a (g + 2) * b g - a g * b (g + 2)
  | 2 => a g * b (g + 1) - a (g + 1) * b g
  | _ => 0

/-- The four intermediate registers `_v0,_v1,_v2,_v3` of `initTriangle1`,
before the final `lane_shuffle_gather`. -/
structure TriPre where
  _v0 : ℕ → Lane
  _v1 : ℕ → Lane
  _v2 : ℕ → Lane
  _v3 : ℕ → Lane

/-- The body of `initTriangle1` up to (and excluding) the final
`lane_shuffle_gather`: `e1 = v0 - v1`, `e2 = v2 - v0`,
`normal = lcross_xyz(e1,e2)`, then the four `select(0x8888, ...)` blends. -/
def initTriangle1Pre (v0 v1 v2 : ℕ → ℚ) (geomID primID mask : ℕ → ℕ) : TriPre :=
  let e1 := fun i => v0 i - v1 i
  let e2 := fun i => v2 i - v0 i
  let normal := lcross_xyz e1 e2
  { _v0 := selectLane mask8888 (fun i => Lane.bits (primID i)) (fun i => Lane.flt (v0 i)),
    _v1 := selectLane mask8888 (fun i => Lane.bits (geomID i)) (fun i => Lane.flt (v1 i)),
    _v2 := selectLane mask8888 (fun i => Lane.bits (mask i)) (fun i => Lane.flt (v2 i)),
    _v3 := selectLane mask8888 (fun _ => Lane.flt 0) (fun i => Lane.flt (normal i)) }

/-! ### Helper lemmas about the leaf encoding -/

theorem encodeLeaf_eq (o c : ℕ) (hc : c ≤ 7) : encodeLeaf o c = 16 * o + 8 + c := by
  have h1 : leaf_mask ||| c = 8 + c := by
    have h := Nat.mul_add_lt_is_or (i := 3) (b := c) (by omega) 1
    simpa using h.symm
  have h2 : o <<< 4 = 2 ^ 4 * o := by rw [Nat.shiftLeft_eq, Nat.mul_comm]
  have h3 : 2 ^ 4 * o + (8 + c) = 2 ^ 4 * o ||| (8 + c) :=
    Nat.mul_add_lt_is_or (by omega) o
  calc encodeLeaf o c = (o <<< 4) ||| leaf_mask ||| c := rfl
    _ = (o <<< 4) ||| (leaf_mask ||| c) := Nat.or_assoc _ _ _
    _ = 2 ^ 4 * o ||| (8 + c) := by rw [h2, h1]
    _ = 2 ^ 4 * o + (8 + c) := h3.symm
    _ = 16 * o + 8 + c := by ring

theorem isLeaf_encode (o c : ℕ) (hc : c ≤ 7) : NodeRef.isLeaf (encodeLeaf o c) ≠ 0 := by
  rw [NodeRef.isLeaf, encodeLeaf_eq o c hc]
  have h8 : leaf_mask = 2 ^ 3 := by decide
  rw [h8, Nat.and_two_pow]
  have ht : (16 * o + 8 + c).testBit 3 = true := by
    rw [Nat.testBit_to_div_mod]
    simp only [decide_eq_true_eq]
    omega
  rw [ht]
  simp

theorem items_encode (o c : ℕ) (hc : c ≤ 7) : NodeRef.items (encodeLeaf o c) = c := by
  rw [NodeRef.items, encodeLeaf_eq o c hc]
  have h7 : items_mask = 2 ^ 3 - 1 := by decide
  rw [h7, Nat.and_pow_two_sub_one_eq_mod]
  omega

theorem offsetIndex_encode (o c : ℕ) (hc : c ≤ 7) :
    NodeRef.offsetIndex (encodeLeaf o c) = o := by
  rw [NodeRef.offsetIndex, encodeLeaf_eq o c hc]
  rw [Nat.shiftRight_eq_div_pow]
  have h4 : encodingBits = 4 := rfl
  rw [h4]
  omega

/-! ### The four interpretations of a 32-bit reference -/

/-- Modelled from the spec: interpretation "internal node" — bit 3 clear. -/
def interpInternal (v : ℕ) : Prop := v &&& leaf_mask = 0

/-- Modelled from the spec: interpretation "empty sentinel" — the reserved
leaf-mask-only pattern. -/
def interpEmpty (v : ℕ) : Prop := v = emptyNode

/-- Modelled from the spec: interpretation "invalid sentinel" — the
reserved all-ones pattern. -/
def interpInvalid (v : ℕ) : Prop := v = invalidNode

/-- Modelled from the spec: interpretation "leaf descriptor" — bit 3 set
and not one of the two reserved patterns. -/
def interpLeaf (v : ℕ) : Prop :=
  v &&& leaf_mask ≠ 0 ∧ v ≠ emptyNode ∧ v ≠ invalidNode

/-! ### Claims C2, C3, C6, C7, C9 -/

/-- Claim C2: for every 32-bit value `v`, exactly one of `isLeaf` (nonzero)
and `isNode` holds, and `emptyNode` is classified as a leaf with item count
0 and offset 0. -/
theorem claim_leaf_node_dichotomy (v : ℕ) (_hv : v < 2 ^ 32) :
    ((NodeRef.isLeaf v ≠ 0 ∧ NodeRef.isNode v = false) ∨
     (NodeRef.isLeaf v = 0 ∧ NodeRef.isNode v = true)) ∧
    NodeRef.isLeaf emptyNode ≠ 0 ∧ NodeRef.items emptyNode = 0 ∧
    NodeRef.offset emptyNode = 0 := by
  refine ⟨?_, by decide, by decide, by decide⟩
  by_cases h : v &&& leaf_mask = 0
  · right
    exact ⟨h, by simp [NodeRef.isNode, NodeRef.isLeaf, h]⟩
  · left
    exact ⟨h, by simp [NodeRef.isNode, NodeRef.isLeaf, h]⟩

theorem claim_leaf_node_dichotomy_witness :
    (5 : ℕ) < 2 ^ 32 ∧
    (((NodeRef.isLeaf 5 ≠ 0 ∧ NodeRef.isNode 5 = false) ∨
      (NodeRef.isLeaf 5 = 0 ∧ NodeRef.isNode 5 = true)) ∧
     NodeRef.isLeaf emptyNode ≠ 0 ∧ NodeRef.items emptyNode = 0 ∧
     NodeRef.offset emptyNode = 0) :=
  ⟨by decide, claim_leaf_node_dichotomy 5 (by decide)⟩

/-- Claim C3 (counterexample to the claim as stated): the legitimately
encodable leaf descriptor with offset `0x0FFFFFFF` and count 7 encodes to
exactly `invalidNode`, so no check can distinguish the two. -/
theorem claim_four_interpretations_cex :
    encodeLeaf (2 ^ 28 - 1) 7 = invalidNode ∧
    2 ^ 28 - 1 < 2 ^ 28 ∧ (7 : ℕ) ≤ 7 ∧
    makeLeaf (2 ^ 28 - 1) 7 = some invalidNode := by
  refine ⟨?_, by decide, by decide, ?_⟩
  · rw [encodeLeaf_eq _ _ (by omega)]
    decide
  · rw [makeLeaf, if_pos ⟨by omega, by omega⟩, encodeLeaf_eq _ _ (by omega)]
    decide

/-- Claim C3 (amended): the four interpretations partition the 32-bit
space, and `invalidNode` is distinguishable from every legitimately
encoded leaf descriptor except the maximal one (offset `0x0FFFFFFF`,
count 7), whose encoding collides with `invalidNode`; in particular the
0-item leaf at offset `0x0FFFFFFF` is distinguishable. -/
theorem claim_four_interpretations :
    (∀ v, v < 2 ^ 32 →
      (interpInternal v ∧ ¬ interpLeaf v ∧ ¬ interpEmpty v ∧ ¬ interpInvalid v) ∨
      (interpLeaf v ∧ ¬ interpInternal v ∧ ¬ interpEmpty v ∧ ¬ interpInvalid v) ∨
      (interpEmpty v ∧ ¬ interpInternal v ∧ ¬ interpLeaf v ∧ ¬ interpInvalid v) ∨
      (interpInvalid v ∧ ¬ interpInternal v ∧ ¬ interpLeaf v ∧ ¬ interpEmpty v)) ∧
    (∀ o c, o < 2 ^ 28 → c ≤ 7 → ¬ (o = 2 ^ 28 - 1 ∧ c = 7) →
      encodeLeaf o c ≠ invalidNode) ∧
    encodeLeaf (2 ^ 28 - 1) 0 ≠ invalidNode ∧
    interpLeaf (encodeLeaf (2 ^ 28 - 1) 0) := by
  refine ⟨?_, ?_, ?_, ?_⟩
  · intro v _
    by_cases h8 : v &&& leaf_mask = 0
    · left
      have hne : v ≠ emptyNode := by
        intro he
        rw [he] at h8
        exact absurd h8 (by decide)
      have hni : v ≠ invalidNode := by
        intro hi
        rw [hi] at h8
        exact absurd h8 (by decide)
      exact ⟨h8, fun hl => hl.1 h8, hne, hni⟩
    · by_cases he : v = emptyNode
      · right; right; left
        refine ⟨he, ?_, fun hl => hl.2.1 he, ?_⟩
        · rw [he]
          intro h
          have h' : emptyNode &&& leaf_mask = 0 := h
          exact absurd h' (by decide)
        · rw [he]
          intro h
          have h' : emptyNode = invalidNode := h
          exact absurd h' (by decide)
      · by_cases hi : v = invalidNode
        · right; right; right
          refine ⟨hi, ?_, fun hl => hl.2.2 hi, ?_⟩
          · rw [hi]
            intro h
            have h' : invalidNode &&& leaf_mask = 0 := h
            exact absurd h' (by decide)
          · rw [hi]
            intro h
            have h' : invalidNode = emptyNode := h
            exact absurd h' (by decide)
        · right; left
          exact ⟨⟨h8, he, hi⟩, fun hn => h8 hn, he, hi⟩
  · intro o c ho hc hne
    rw [encodeLeaf_eq o c hc, invalidNode]
    omega
  · rw [encodeLeaf_eq _ _ (by omega), invalidNode]
    omega
  · refine ⟨isLeaf_encode _ _ (by omega), ?_, ?_⟩
    · rw [encodeLeaf_eq _ _ (by omega), emptyNode]
      decide
    · rw [encodeLeaf_eq _ _ (by omega), invalidNode]
      omega

theorem claim_four_interpretations_witness :
    (40 : ℕ) < 2 ^ 32 ∧ (3 : ℕ) < 2 ^ 28 ∧ (2 : ℕ) ≤ 7 ∧
    ¬ ((3 : ℕ) = 2 ^ 28 - 1 ∧ (2 : ℕ) = 7) ∧
    ((interpInternal 40 ∧ ¬ interpLeaf 40 ∧ ¬ interpEmpty 40 ∧ ¬ interpInvalid 40) ∨
     (interpLeaf 40 ∧ ¬ interpInternal 40 ∧ ¬ interpEmpty 40 ∧ ¬ interpInvalid 40) ∨
     (interpEmpty 40 ∧ ¬ interpInternal 40 ∧ ¬ interpLeaf 40 ∧ ¬ interpInvalid 40) ∨
     (interpInvalid 40 ∧ ¬ interpInternal 40 ∧ ¬ interpLeaf 40 ∧ ¬ interpEmpty 40)) ∧
    encodeLeaf 3 2 ≠ invalidNode :=
  ⟨by decide, by decide, by decide, by decide,
   claim_four_interpretations.1 40 (by decide),
   claim_four_interpretations.2.1 3 2 (by decide) (by decide) (by decide)⟩

/-- Claim C6 (counterexample to the claim as stated): offset 40 has bit 3
set, so the reference `makeInternal(40)` encodes (the offset is encoded
as-is) is classified as a leaf, not an internal node. -/
theorem claim_makeInternal_cex :
    NodeRef.isNode (makeInternal 40) = false ∧
    NodeRef.isLeaf (makeInternal 40) ≠ 0 := by
  decide

/-- Claim C6 (amended): for an offset with bit 3 clear, `makeInternal`
yields a reference with `isNode() = true`, `isLeaf() = 0` and
`nodeID() = offset*2/sizeof(Node)`; offset 40 has bit 3 set, so
`makeInternal(40)` is classified as a leaf instead — though its
`nodeID()` still equals `40*2/sizeof(Node)`. -/
theorem claim_makeInternal :
    (∀ o, o < 2 ^ 28 → o &&& leaf_mask = 0 →
      NodeRef.isNode (makeInternal o) = true ∧
      NodeRef.isLeaf (makeInternal o) = 0 ∧
      NodeRef.nodeID (makeInternal o) = o * 2 / sizeofNode) ∧
    NodeRef.isNode (makeInternal 40) = false ∧
    NodeRef.nodeID (makeInternal 40) = 40 * 2 / sizeofNode := by
  refine ⟨?_, by decide, by decide⟩
  intro o ho hbit
  refine ⟨?_, hbit, ?_⟩
  · simp [NodeRef.isNode, makeInternal, hbit]
  · rw [NodeRef.nodeID, makeInternal, Nat.mod_eq_of_lt (by omega)]

theorem claim_makeInternal_witness :
    (48 : ℕ) < 2 ^ 28 ∧ (48 : ℕ) &&& leaf_mask = 0 ∧
    (NodeRef.isNode (makeInternal 48) = true ∧
     NodeRef.isLeaf (makeInternal 48) = 0 ∧
     NodeRef.nodeID (makeInternal 48) = 48 * 2 / sizeofNode) :=
  ⟨by decide, by decide, claim_makeInternal.1 48 (by decide) (by decide)⟩

/-- Claim C7: the leaf encoding round-trips for every offset fitting in 28
bits and every count in `[0,7]` (`isLeaf` nonzero, `items` recovers the
count, `offsetIndex` recovers the offset), and `makeLeaf` with count 8 is
rejected. -/
theorem claim_leaf_roundtrip :
    (∀ o c, o < 2 ^ 28 → c ≤ 7 →
      NodeRef.isLeaf (encodeLeaf o c) ≠ 0 ∧
      NodeRef.items (encodeLeaf o c) = c ∧
      NodeRef.offsetIndex (encodeLeaf o c) = o) ∧
    (∀ o, makeLeaf o 8 = none) := by
  refine ⟨fun o c ho hc => ⟨isLeaf_encode o c hc, items_encode o c hc,
    offsetIndex_encode o c hc⟩, ?_⟩
  intro o
  rw [makeLeaf, if_neg]
  intro h
  omega

theorem claim_leaf_roundtrip_witness :
    (123 : ℕ) < 2 ^ 28 ∧ (7 : ℕ) ≤ 7 ∧
    (NodeRef.isLeaf (encodeLeaf 123 7) ≠ 0 ∧
     NodeRef.items (encodeLeaf 123 7) = 7 ∧
     NodeRef.offsetIndex (encodeLeaf 123 7) = 123) ∧
    makeLeaf 123 8 = none :=
  ⟨by decide, by decide, claim_leaf_roundtrip.1 123 7 (by decide) (by decide),
   claim_leaf_roundtrip.2 123⟩

/-- Claim C9: a freshly constructed `BVH4i` container has root
`emptyNode`, null node and primitive buffers, zero byte counters, and
therefore `bytes() = 0`. -/
theorem claim_fresh_container (pt : ℕ) (g : Option ℕ) :
    (BVH4i.make pt g).root = emptyNode ∧
    (BVH4i.make pt g).qbvh = none ∧
    (BVH4i.make pt g).accel = none ∧
    (BVH4i.make pt g).size_node = 0 ∧
    (BVH4i.make pt g).size_accel = 0 ∧
    (BVH4i.make pt g).bytes = 0 :=
  ⟨rfl, rfl, rfl, rfl, rfl, rfl⟩

/-! ### Concrete values used in the examples -/

/-- An all-zero node, base value for the concrete examples. -/
def zeroNode : Node :=
  ⟨fun _ => ⟨EF.fin 0, EF.fin 0, EF.fin 0, 0⟩,
   fun _ => ⟨EF.fin 0, EF.fin 0, EF.fin 0, 0⟩⟩

/-- The unit box `[0,1]^3`. -/
def unitBox : BBox :=
  ⟨⟨EF.fin 0, EF.fin 0, EF.fin 0⟩, ⟨EF.fin 1, EF.fin 1, EF.fin 1⟩⟩

/-! ### Claims C4, C5, C10 -/

/-- Claim C4: for any child slot `i`, any box `B` with `lower ≤ upper`
componentwise and any reference `R`, performing `setBounds(i,B)` and then
assigning `child(i) = R` makes `bounds(i)` return `B` and `child(i)`
return `R`. -/
theorem claim_setBounds_roundtrip (n : Node) (i : Fin 4) (B : BBox) (R : ℕ)
    (_hB : EF.le B.lower.x B.upper.x = true ∧ EF.le B.lower.y B.upper.y = true ∧
           EF.le B.lower.z B.upper.z = true) :
    Node.bounds (Node.setChild (Node.setBounds n i B) i R) i = B ∧
    Node.child (Node.setChild (Node.setBounds n i B) i R) i = R := by
  constructor
  · cases B with
    | mk lo up =>
      cases lo
      cases up
      simp [Node.bounds, Node.setChild, Node.setBounds]
  · simp [Node.child, Node.setChild, Node.setBounds]

theorem claim_setBounds_roundtrip_witness :
    (EF.le unitBox.lower.x unitBox.upper.x = true ∧
     EF.le unitBox.lower.y unitBox.upper.y = true ∧
     EF.le unitBox.lower.z unitBox.upper.z = true) ∧
    Node.bounds (Node.setChild (Node.setBounds zeroNode 0 unitBox) 0 42) 0 = unitBox ∧
    Node.child (Node.setChild (Node.setBounds zeroNode 0 unitBox) 0 42) 0 = 42 :=
  ⟨by decide, claim_setBounds_roundtrip zeroNode 0 unitBox 42 (by decide)⟩

/-- Claim C5 (counterexample to the claim as stated): `setInvalid` writes
`NodeRef(0)` into `upper[i].child`, and `NodeRef(0) ≠ emptyNode` (which
is `8`). -/
theorem claim_setInvalid_cex :
    ((Node.setInvalid zeroNode 0).upper 0).child = 0 ∧
    ((Node.setInvalid zeroNode 0).upper 0).child ≠ emptyNode := by
  decide

/-- Claim C5 (amended): after `setInvalid(i)` the slot holds
`lower[i] = (+inf,+inf,+inf, invalidNode)` and
`upper[i] = (-inf,-inf,-inf, NodeRef(0))` — the reference written to
`upper[i]` is `NodeRef(0)`, not `emptyNode`. -/
theorem claim_setInvalid (n : Node) (i : Fin 4) :
    (Node.setInvalid n i).lower i = ⟨EF.pinf, EF.pinf, EF.pinf, invalidNode⟩ ∧
    (Node.setInvalid n i).upper i = ⟨EF.ninf, EF.ninf, EF.ninf, 0⟩ := by
  constructor <;> simp [Node.setInvalid]

/-- Claim C10: `setBounds(i,b)` writes only the six coordinate fields of
slot `i`: the two `child` fields of slot `i` and every field of every
other slot are unchanged. -/
theorem claim_setBounds_frame (n : Node) (i : Fin 4) (b : BBox) :
    ((Node.setBounds n i b).lower i).child = (n.lower i).child ∧
    ((Node.setBounds n i b).upper i).child = (n.upper i).child ∧
    (∀ j, j ≠ i → (Node.setBounds n i b).lower j = n.lower j ∧
                  (Node.setBounds n i b).upper j = n.upper j) := by
  refine ⟨by simp [Node.setBounds], by simp [Node.setBounds], ?_⟩
  intro j hj
  constructor <;> simp [Node.setBounds, hj]

theorem claim_setBounds_frame_witness :
    ((1 : Fin 4) ≠ 0) ∧
    ((Node.setBounds zeroNode 0 unitBox).lower 1 = zeroNode.lower 1 ∧
     (Node.setBounds zeroNode 0 unitBox).upper 1 = zeroNode.upper 1) ∧
    ((Node.setBounds zeroNode 0 unitBox).lower 0).child = (zeroNode.lower 0).child :=
  ⟨by decide, (claim_setBounds_frame zeroNode 0 unitBox).2.2 1 (by decide),
   (claim_setBounds_frame zeroNode 0 unitBox).1⟩

/-! ### Claim C8 -/

/-- Lane values of `v0` used in the triangle-packing example. -/
def cexV0 : ℕ → ℚ := fun _ => 0

/-- Lane values of `v1` used in the triangle-packing example. -/
def cexV1 : ℕ → ℚ := fun i => if i = 2 then 1 else 0

/-- Lane values of `v2` used in the triangle-packing example. -/
def cexV2 : ℕ → ℚ := fun i => if i = 1 then 1 else 0

/-- All-zero integer lanes used in the triangle-packing example. -/
def cexIdVec : ℕ → ℕ := fun _ => 0

/-- Claim C8 (counterexample to the claim as stated): `_v3` does not hold
`(0,0,0,*)` — its first lane carries the x component of the normal, here
`1 ≠ 0` (the normal goes into the first three lanes of each group, the
fourth lane is zeroed). -/
theorem claim_triangle_pack_cex :
    (initTriangle1Pre cexV0 cexV1 cexV2 cexIdVec cexIdVec cexIdVec)._v3 0 =
      Lane.flt 1 ∧
    Lane.flt (1 : ℚ) ≠ Lane.flt 0 := by
  constructor
  · norm_num [initTriangle1Pre, selectLane, lcross_xyz, mask8888, cexV0, cexV1, cexV2]
  · simp

/-- Claim C8 (amended): `initTriangle1` overwrites every fourth lane of
`_v0`/`_v1`/`_v2` with the bit patterns of `primID`/`geomID`/`mask`
respectively (keeping the vertex lanes elsewhere), and `_v3` holds the
geometric normal `cross(v0-v1, v2-v0)` in the first three lanes of each
4-lane group with `0.0` in every fourth lane — not `(0,0,0,normal)` as
the claim states. -/
theorem claim_triangle_pack (v0 v1 v2 : ℕ → ℚ) (geomID primID mask : ℕ → ℕ) :
    (∀ i, mask8888 i = true →
      (initTriangle1Pre v0 v1 v2 geomID primID mask)._v0 i = Lane.bits (primID i) ∧
      (initTriangle1Pre v0 v1 v2 geomID primID mask)._v1 i = Lane.bits (geomID i) ∧
      (initTriangle1Pre v0 v1 v2 geomID primID mask)._v2 i = Lane.bits (mask i) ∧
      (initTriangle1Pre v0 v1 v2 geomID primID mask)._v3 i = Lane.flt 0) ∧
    (∀ i, mask8888 i = false →
      (initTriangle1Pre v0 v1 v2 geomID primID mask)._v0 i = Lane.flt (v0 i) ∧
      (initTriangle1Pre v0 v1 v2 geomID primID mask)._v1 i = Lane.flt (v1 i) ∧
      (initTriangle1Pre v0 v1 v2 geomID primID mask)._v2 i = Lane.flt (v2 i)) ∧
    (∀ g,
      (initTriangle1Pre v0 v1 v2 geomID primID mask)._v3 (4 * g) =
        Lane.flt ((v0 (4 * g + 1) - v1 (4 * g + 1)) * (v2 (4 * g + 2) - v0 (4 * g + 2)) -
                  (v0 (4 * g + 2) - v1 (4 * g + 2)) * (v2 (4 * g + 1) - v0 (4 * g + 1))) ∧
      (initTriangle1Pre v0 v1 v2 geomID primID mask)._v3 (4 * g + 1) =
        Lane.flt ((v0 (4 * g + 2) - v1 (4 * g + 2)) * (v2 (4 * g) - v0 (4 * g)) -
                  (v0 (4 * g) - v1 (4 * g)) * (v2 (4 * g + 2) - v0 (4 * g + 2))) ∧
      (initTriangle1Pre v0 v1 v2 geomID primID mask)._v3 (4 * g + 2) =
        Lane.flt ((v0 (4 * g) - v1 (4 * g)) * (v2 (4 * g + 1) - v0 (4 * g + 1)) -
                  (v0 (4 * g + 1) - v1 (4 * g + 1)) * (v2 (4 * g) - v0 (4 * g)))) := by
  refine ⟨?_, ?_, ?_⟩
  · intro i h
    refine ⟨?_, ?_, ?_, ?_⟩ <;> simp [initTriangle1Pre, selectLane, h]
  · intro i h
    refine ⟨?_, ?_, ?_⟩ <;> simp [initTriangle1Pre, selectLane, h]
  · intro g
    have hm0 : mask8888 (4 * g) = false := by
      simp [mask8888, Nat.mul_mod_right]
    have hm1 : mask8888 (4 * g + 1) = false := by
      have : (4 * g + 1) % 4 = 1 := by omega
      simp [mask8888, this]
    have hm2 : mask8888 (4 * g + 2) = false := by
      have : (4 * g + 2) % 4 = 2 := by omega
      simp [mask8888, this]
    have hd0 : (4 * g) % 4 = 0 := Nat.mul_mod_right 4 g
    have he0 : 4 * (4 * g / 4) = 4 * g := by omega
    have hd1 : (4 * g + 1) % 4 = 1 := by omega
    have he1 : 4 * ((4 * g + 1) / 4) = 4 * g := by omega
    have hd2 : (4 * g + 2) % 4 = 2 := by omega
    have he2 : 4 * ((4 * g + 2) / 4) = 4 * g := by omega
    refine ⟨?_, ?_, ?_⟩
    · simp [initTriangle1Pre, selectLane, hm0, lcross_xyz, hd0, he0]
    · simp [initTriangle1Pre, selectLane, hm1, lcross_xyz, hd1, he1]
    · simp [initTriangle1Pre, selectLane, hm2, lcross_xyz, hd2, he2]

theorem claim_triangle_pack_witness :
    mask8888 3 = true ∧ mask8888 0 = false ∧
    (initTriangle1Pre cexV0 cexV1 cexV2 cexIdVec cexIdVec cexIdVec)._v0 3 =
      Lane.bits (cexIdVec 3) ∧
    (initTriangle1Pre cexV0 cexV1 cexV2 cexIdVec cexIdVec cexIdVec)._v0 0 =
      Lane.flt (cexV0 0) ∧
    (initTriangle1Pre cexV0 cexV1 cexV2 cexIdVec cexIdVec cexIdVec)._v3 (4 * 0) =
      Lane.flt ((cexV0 (4 * 0 + 1) - cexV1 (4 * 0 + 1)) * (cexV2 (4 * 0 + 2) - cexV0 (4 * 0 + 2)) -
                (cexV0 (4 * 0 + 2) - cexV1 (4 * 0 + 2)) * (cexV2 (4 * 0 + 1) - cexV0 (4 * 0 + 1))) :=
  ⟨by decide, by decide,
   ((claim_triangle_pack cexV0 cexV1 cexV2 cexIdVec cexIdVec cexIdVec).1 3 (by decide)).1,
   ((claim_triangle_pack cexV0 cexV1 cexV2 cexIdVec cexIdVec cexIdVec).2.1 0 (by decide)).1,
   ((claim_triangle_pack cexV0 cexV1 cexV2 cexIdVec cexIdVec cexIdVec).2.2 0).1⟩

/-! ### Helper lemmas for the quantization proof -/

theorem EF.sub_fin_fin (a b : ℚ) : EF.sub (EF.fin a) (EF.fin b) = EF.fin (a - b) := by
  show EF.fin (a + -b) = EF.fin (a - b)
  rw [← sub_eq_add_neg]

theorem EF.add_fin_fin (a b : ℚ) : EF.add (EF.fin a) (EF.fin b) = EF.fin (a + b) := rfl

theorem EF.mul_fin_fin (a b : ℚ) : EF.mul (EF.fin a) (EF.fin b) = EF.fin (a * b) := rfl

theorem EF.le_fin_fin (a b : ℚ) : (EF.le (EF.fin a) (EF.fin b) = true) ↔ a ≤ b := by
  simp [EF.le]

theorem EF.le_fin_pinf (a : ℚ) : EF.le (EF.fin a) EF.pinf = true := rfl

theorem EF.le_ninf_fin (a : ℚ) : EF.le EF.ninf (EF.fin a) = true := rfl

theorem EF.feq_fin_pinf (a : ℚ) : EF.feq (EF.fin a) EF.pinf = false := rfl

theorem EF.feq_pinf_pinf : EF.feq EF.pinf EF.pinf = true := rfl

theorem EF.div_fin_fin (a b : ℚ) (hb : b ≠ 0) :
    EF.div (EF.fin a) (EF.fin b) = EF.fin (a / b) := by
  simp [EF.div, hb]

theorem EF.toByte_fin (q : ℚ) :
    EF.toByte (EF.fin q) = min (Int.toNat ⌊q + 1/2⌋) 255 := rfl

theorem EF.isFin_iff (e : EF) : e.isFin = true ↔ ∃ a : ℚ, e = EF.fin a := by
  cases e <;> simp [EF.isFin]

/-- Characterization of the lanewise `min` on values that are either `+inf`
or finite: the result is `+inf` exactly when both are, and otherwise a
finite lower bound of both that is one of the two arguments. -/
theorem fmin_ok (x y : EF)
    (hx : x = EF.pinf ∨ ∃ a : ℚ, x = EF.fin a)
    (hy : y = EF.pinf ∨ ∃ a : ℚ, y = EF.fin a) :
    (EF.fmin x y = EF.pinf ∧ x = EF.pinf ∧ y = EF.pinf) ∨
    (∃ m : ℚ, EF.fmin x y = EF.fin m ∧
      (∀ a : ℚ, x = EF.fin a → m ≤ a) ∧ (∀ a : ℚ, y = EF.fin a → m ≤ a)) := by
  rcases hx with rfl | ⟨a, rfl⟩
  · rcases hy with rfl | ⟨b, rfl⟩
    · left
      exact ⟨by simp [EF.fmin, EF.lt], rfl, rfl⟩
    · right
      refine ⟨b, by simp [EF.fmin, EF.lt], ?_, ?_⟩
      · intro c hc
        exact EF.noConfusion hc
      · intro c hc
        injection hc with h
        exact le_of_eq h
  · rcases hy with rfl | ⟨b, rfl⟩
    · right
      refine ⟨a, by simp [EF.fmin, EF.lt], ?_, ?_⟩
      · intro c hc
        injection hc with h
        exact le_of_eq h
      · intro c hc
        exact EF.noConfusion hc
    · right
      by_cases hab : a < b
      · refine ⟨a, by simp [EF.fmin, EF.lt, hab], ?_, ?_⟩
        · intro c hc
          injection hc with h
          exact le_of_eq h
        · intro c hc
          injection hc with h
          subst h
          exact le_of_lt hab
      · refine ⟨b, by simp [EF.fmin, EF.lt, hab], ?_, ?_⟩
        · intro c hc
          injection hc with h
          subst h
          exact le_of_not_lt hab
        · intro c hc
          injection hc with h
          exact le_of_eq h

/-- Characterization of the lanewise `max` on values that are either `-inf`
or finite. -/
theorem fmax_ok (x y : EF)
    (hx : x = EF.ninf ∨ ∃ a : ℚ, x = EF.fin a)
    (hy : y = EF.ninf ∨ ∃ a : ℚ, y = EF.fin a) :
    (EF.fmax x y = EF.ninf ∧ x = EF.ninf ∧ y = EF.ninf) ∨
    (∃ M : ℚ, EF.fmax x y = EF.fin M ∧
      (∀ a : ℚ, x = EF.fin a → a ≤ M) ∧ (∀ a : ℚ, y = EF.fin a → a ≤ M)) := by
  rcases hx with rfl | ⟨a, rfl⟩
  · rcases hy with rfl | ⟨b, rfl⟩
    · left
      exact ⟨by simp [EF.fmax, EF.lt], rfl, rfl⟩
    · right
      refine ⟨b, by simp [EF.fmax, EF.lt], ?_, ?_⟩
      · intro c hc
        exact EF.noConfusion hc
      · intro c hc
        injection hc with h
        exact le_of_eq h.symm
  · rcases hy with rfl | ⟨b, rfl⟩
    · right
      refine ⟨a, by simp [EF.fmax, EF.lt], ?_, ?_⟩
      · intro c hc
        injection hc with h
        exact le_of_eq h.symm
      · intro c hc
        exact EF.noConfusion hc
    · right
      by_cases hab : a < b
      · refine ⟨b, by simp [EF.fmax, EF.lt, hab], ?_, ?_⟩
        · intro c hc
          injection hc with h
          subst h
          exact le_of_lt hab
        · intro c hc
          injection hc with h
          exact le_of_eq h.symm
      · refine ⟨a, by simp [EF.fmax, EF.lt, hab], ?_, ?_⟩
        · intro c hc
          injection hc with h
          exact le_of_eq h.symm
        · intro c hc
          injection hc with h
          subst h
          exact le_of_not_lt hab

/-! Unfolding lemmas for the components of `axisInit`. -/

theorem axisInit_start (l u : Fin 4 → EF) :
    (axisInit l u).start = EF.fmin (EF.fmin (l 0) (l 1)) (EF.fmin (l 2) (l 3)) := rfl

theorem axisInit_diff (l u : Fin 4 → EF) :
    (axisInit l u).diff =
      EF.mul (EF.sub (EF.fmax (EF.fmax (u 0) (u 1)) (EF.fmax (u 2) (u 3)))
        (EF.fmin (EF.fmin (l 0) (l 1)) (EF.fmin (l 2) (l 3)))) (EF.fin (1/255)) := rfl

theorem axisInit_qlo (l u : Fin 4 → EF) (i : Fin 4) :
    (axisInit l u).qlo i =
      (EF.sub (EF.mul (EF.sub
          (if EF.feq (l i) EF.pinf = true then
            EF.fmin (EF.fmin (l 0) (l 1)) (EF.fmin (l 2) (l 3)) else l i)
          (EF.fmin (EF.fmin (l 0) (l 1)) (EF.fmin (l 2) (l 3))))
        (EF.div (EF.fin 255)
          (EF.sub (EF.fmax (EF.fmax (u 0) (u 1)) (EF.fmax (u 2) (u 3)))
            (EF.fmin (EF.fmin (l 0) (l 1)) (EF.fmin (l 2) (l 3))))))
        (EF.fin (1/2))).toByte := rfl

theorem axisInit_qhi (l u : Fin 4 → EF) (i : Fin 4) :
    (axisInit l u).qhi i =
      (EF.add (EF.mul (EF.sub
          (if EF.feq (l i) EF.pinf = true then
            EF.fmin (EF.fmin (l 0) (l 1)) (EF.fmin (l 2) (l 3)) else u i)
          (EF.fmin (EF.fmin (l 0) (l 1)) (EF.fmin (l 2) (l 3))))
        (EF.div (EF.fin 255)
          (EF.sub (EF.fmax (EF.fmax (u 0) (u 1)) (EF.fmax (u 2) (u 3)))
            (EF.fmin (EF.fmin (l 0) (l 1)) (EF.fmin (l 2) (l 3))))))
        (EF.fin (1/2))).toByte := rfl

/-- One-axis conservativeness of the quantization: if every child lane on
this axis is either the invalid sentinel (`+inf` lower, `-inf` upper) or a
finite pair `a ≤ b`, and at least one child is finite, then the
decompressed lower bound is `≤` the original lower lane and the
decompressed upper bound is `≥` the original upper lane, for all four
children. -/
theorem axis_conservative (l u : Fin 4 → EF)
    (hw : ∀ i, (l i = EF.pinf ∧ u i = EF.ninf) ∨
      (∃ a b : ℚ, l i = EF.fin a ∧ u i = EF.fin b ∧ a ≤ b))
    (hv : ∃ j, ∃ a b : ℚ, l j = EF.fin a ∧ u j = EF.fin b ∧ a ≤ b) :
    ∀ i, EF.le (decompLo (axisInit l u) i) (l i) = true ∧
         EF.le (u i) (decompHi (axisInit l u) i) = true := by
  have hl : ∀ i, l i = EF.pinf ∨ ∃ a : ℚ, l i = EF.fin a := by
    intro i
    rcases hw i with ⟨h, -⟩ | ⟨a, b, h, -, -⟩
    · exact Or.inl h
    · exact Or.inr ⟨a, h⟩
  have hu : ∀ i, u i = EF.ninf ∨ ∃ a : ℚ, u i = EF.fin a := by
    intro i
    rcases hw i with ⟨-, h⟩ | ⟨a, b, -, h, -⟩
    · exact Or.inl h
    · exact Or.inr ⟨b, h⟩
  have hfin4 : ∀ i : Fin 4, i = 0 ∨ i = 1 ∨ i = 2 ∨ i = 3 := by decide
  have hmin : ∃ m : ℚ,
      EF.fmin (EF.fmin (l 0) (l 1)) (EF.fmin (l 2) (l 3)) = EF.fin m ∧
      ∀ i, ∀ a : ℚ, l i = EF.fin a → m ≤ a := by
    rcases fmin_ok (l 0) (l 1) (hl 0) (hl 1) with ⟨e01, h0p, h1p⟩ | ⟨m1, e01, lb0, lb1⟩ <;>
      rcases fmin_ok (l 2) (l 3) (hl 2) (hl 3) with ⟨e23, h2p, h3p⟩ | ⟨m2, e23, lb2, lb3⟩
    · exfalso
      obtain ⟨j, a, b, hj, -, -⟩ := hv
      rcases hfin4 j with rfl | rfl | rfl | rfl
      · rw [h0p] at hj; exact EF.noConfusion hj
      · rw [h1p] at hj; exact EF.noConfusion hj
      · rw [h2p] at hj; exact EF.noConfusion hj
      · rw [h3p] at hj; exact EF.noConfusion hj
    · refine ⟨m2, ?_, ?_⟩
      · rw [e01, e23]
        simp [EF.fmin, EF.lt]
      · intro i a hi
        rcases hfin4 i with rfl | rfl | rfl | rfl
        · rw [h0p] at hi; exact EF.noConfusion hi
        · rw [h1p] at hi; exact EF.noConfusion hi
        · exact lb2 a hi
        · exact lb3 a hi
    · refine ⟨m1, ?_, ?_⟩
      · rw [e01, e23]
        simp [EF.fmin, EF.lt]
      · intro i a hi
        rcases hfin4 i with rfl | rfl | rfl | rfl
        · exact lb0 a hi
        · exact lb1 a hi
        · rw [h2p] at hi; exact EF.noConfusion hi
        · rw [h3p] at hi; exact EF.noConfusion hi
    · rcases fmin_ok (EF.fin m1) (EF.fin m2) (Or.inr ⟨m1, rfl⟩) (Or.inr ⟨m2, rfl⟩) with
        ⟨-, hc, -⟩ | ⟨m, e, lbA, lbB⟩
      · exact EF.noConfusion hc
      · refine ⟨m, by rw [e01, e23]; exact e, ?_⟩
        have hm1 : m ≤ m1 := lbA m1 rfl
        have hm2 : m ≤ m2 := lbB m2 rfl
        intro i a hi
        rcases hfin4 i with rfl | rfl | rfl | rfl
        · exact le_trans hm1 (lb0 a hi)
        · exact le_trans hm1 (lb1 a hi)
        · exact le_trans hm2 (lb2 a hi)
        · exact le_trans hm2 (lb3 a hi)
  have hmax : ∃ M : ℚ,
      EF.fmax (EF.fmax (u 0) (u 1)) (EF.fmax (u 2) (u 3)) = EF.fin M ∧
      ∀ i, ∀ b : ℚ, u i = EF.fin b → b ≤ M := by
    rcases fmax_ok (u 0) (u 1) (hu 0) (hu 1) with ⟨e01, h0p, h1p⟩ | ⟨M1, e01, ub0, ub1⟩ <;>
      rcases fmax_ok (u 2) (u 3) (hu 2) (hu 3) with ⟨e23, h2p, h3p⟩ | ⟨M2, e23, ub2, ub3⟩
    · exfalso
      obtain ⟨j, a, b, -, hj, -⟩ := hv
      rcases hfin4 j with rfl | rfl | rfl | rfl
      · rw [h0p] at hj; exact EF.noConfusion hj
      · rw [h1p] at hj; exact EF.noConfusion hj
      · rw [h2p] at hj; exact EF.noConfusion hj
      · rw [h3p] at hj; exact EF.noConfusion hj
    · refine ⟨M2, ?_, ?_⟩
      · rw [e01, e23]
        simp [EF.fmax, EF.lt]
      · intro i b hi
        rcases hfin4 i with rfl | rfl | rfl | rfl
        · rw [h0p] at hi; exact EF.noConfusion hi
        · rw [h1p] at hi; exact EF.noConfusion hi
        · exact ub2 b hi
        · exact ub3 b hi
    · refine ⟨M1, ?_, ?_⟩
      · rw [e01, e23]
        simp [EF.fmax, EF.lt]
      · intro i b hi
        rcases hfin4 i with rfl | rfl | rfl | rfl
        · exact ub0 b hi
        · exact ub1 b hi
        · rw [h2p] at hi; exact EF.noConfusion hi
        · rw [h3p] at hi; exact EF.noConfusion hi
    · rcases fmax_ok (EF.fin M1) (EF.fin M2) (Or.inr ⟨M1, rfl⟩) (Or.inr ⟨M2, rfl⟩) with
        ⟨-, hc, -⟩ | ⟨M, e, ubA, ubB⟩
      · exact EF.noConfusion hc
      · refine ⟨M, by rw [e01, e23]; exact e, ?_⟩
        have hM1 : M1 ≤ M := ubA M1 rfl
        have hM2 : M2 ≤ M := ubB M2 rfl
        intro i b hi
        rcases hfin4 i with rfl | rfl | rfl | rfl
        · exact le_trans (ub0 b hi) hM1
        · exact le_trans (ub1 b hi) hM1
        · exact le_trans (ub2 b hi) hM2
        · exact le_trans (ub3 b hi) hM2
  obtain ⟨m, hminEq, hmLB⟩ := hmin
  obtain ⟨M, hmaxEq, hMUB⟩ := hmax
  have hmM : m ≤ M := by
    obtain ⟨j, a, b, hja, hjb, hab⟩ := hv
    exact le_trans (hmLB j a hja) (le_trans hab (hMUB j b hjb))
  have hlo_eq : ∀ i, decompLo (axisInit l u) i =
      EF.fin (m + (M - m) * (1/255) * (((axisInit l u).qlo i : ℕ) : ℚ)) := by
    intro i
    simp only [decompLo, axisInit_start, axisInit_diff, hminEq, hmaxEq,
      EF.sub_fin_fin, EF.mul_fin_fin, EF.add_fin_fin]
  have hhi_eq : ∀ i, decompHi (axisInit l u) i =
      EF.fin (m + (M - m) * (1/255) * (((axisInit l u).qhi i : ℕ) : ℚ)) := by
    intro i
    simp only [decompHi, axisInit_start, axisInit_diff, hminEq, hmaxEq,
      EF.sub_fin_fin, EF.mul_fin_fin, EF.add_fin_fin]
  intro i
  rcases hw i with ⟨hli, hui⟩ | ⟨a, b, hla, hub, hab⟩
  · constructor
    · rw [hlo_eq i, hli]
      exact EF.le_fin_pinf _
    · rw [hhi_eq i, hui]
      exact EF.le_ninf_fin _
  · have hma : m ≤ a := hmLB i a hla
    have hbM : b ≤ M := hMUB i b hub
    by_cases hdz : M - m = 0
    · constructor
      · rw [hlo_eq i, hla, EF.le_fin_fin]
        have h0 : (M - m) * (1/255) * (((axisInit l u).qlo i : ℕ) : ℚ) = 0 := by
          rw [hdz]
          ring
        linarith
      · rw [hhi_eq i, hub, EF.le_fin_fin]
        have h0 : (M - m) * (1/255) * (((axisInit l u).qhi i : ℕ) : ℚ) = 0 := by
          rw [hdz]
          ring
        linarith
    · have hdpos : 0 < M - m := lt_of_le_of_ne (by linarith) (Ne.symm hdz)
      constructor
      · have hql : (axisInit l u).qlo i =
            min (Int.toNat ⌊(a - m) * (255 / (M - m))⌋) 255 := by
          have harr : (a - m) * (255 / (M - m)) - 1/2 + 1/2
              = (a - m) * (255 / (M - m)) := by ring
          simp [axisInit_qlo, hminEq, hmaxEq, hla, EF.feq_fin_pinf, EF.sub_fin_fin,
            EF.div_fin_fin _ _ hdz, EF.mul_fin_fin, EF.toByte_fin, harr]
        rw [hlo_eq i, hla, EF.le_fin_fin, hql]
        have hz0 : 0 ≤ (a - m) * (255 / (M - m)) :=
          mul_nonneg (by linarith) (div_nonneg (by norm_num) (le_of_lt hdpos))
        have hfl0 : (0:ℤ) ≤ ⌊(a - m) * (255 / (M - m))⌋ := Int.floor_nonneg.2 hz0
        have hcast : ((min (Int.toNat ⌊(a - m) * (255 / (M - m))⌋) 255 : ℕ) : ℚ)
            ≤ (a - m) * (255 / (M - m)) := by
          have h1 : min (Int.toNat ⌊(a - m) * (255 / (M - m))⌋) 255
              ≤ Int.toNat ⌊(a - m) * (255 / (M - m))⌋ := min_le_left _ _
          have h2 : ((Int.toNat ⌊(a - m) * (255 / (M - m))⌋ : ℕ) : ℚ)
              = ((⌊(a - m) * (255 / (M - m))⌋ : ℤ) : ℚ) := by
            exact_mod_cast Int.toNat_of_nonneg hfl0
          calc ((min (Int.toNat ⌊(a - m) * (255 / (M - m))⌋) 255 : ℕ) : ℚ)
              ≤ ((Int.toNat ⌊(a - m) * (255 / (M - m))⌋ : ℕ) : ℚ) := by exact_mod_cast h1
            _ = ((⌊(a - m) * (255 / (M - m))⌋ : ℤ) : ℚ) := h2
            _ ≤ (a - m) * (255 / (M - m)) := Int.floor_le _
        have hfac : (0:ℚ) ≤ (M - m) * (1/255) := mul_nonneg (by linarith) (by norm_num)
        have hstep : (M - m) * (1/255)
              * ((min (Int.toNat ⌊(a - m) * (255 / (M - m))⌋) 255 : ℕ) : ℚ)
            ≤ (M - m) * (1/255) * ((a - m) * (255 / (M - m))) :=
          mul_le_mul_of_nonneg_left hcast hfac
        have hzv : (M - m) * (1/255) * ((a - m) * (255 / (M - m))) = a - m := by
          field_simp
          ring
        linarith
      · have hqh0 : (axisInit l u).qhi i =
            (EF.fin ((b - m) * (255 / (M - m)) + 1/2)).toByte := by
          simp [axisInit_qhi, hminEq, hmaxEq, hla, hub, EF.feq_fin_pinf, EF.sub_fin_fin,
            EF.div_fin_fin _ _ hdz, EF.mul_fin_fin, EF.add_fin_fin]
        have hqh : (axisInit l u).qhi i =
            min (Int.toNat (⌊(b - m) * (255 / (M - m))⌋ + 1)) 255 := by
          rw [hqh0, EF.toByte_fin]
          have harr : (b - m) * (255 / (M - m)) + 1/2 + 1/2
              = (b - m) * (255 / (M - m)) + 1 := by ring
          rw [harr, Int.floor_add_one]
        rw [hhi_eq i, hub, EF.le_fin_fin, hqh]
        have hw0 : 0 ≤ (b - m) * (255 / (M - m)) :=
          mul_nonneg (by linarith) (div_nonneg (by norm_num) (le_of_lt hdpos))
        have hw255 : (b - m) * (255 / (M - m)) ≤ 255 := by
          have h1 : (b - m) * (255 / (M - m)) ≤ (M - m) * (255 / (M - m)) :=
            mul_le_mul_of_nonneg_right (by linarith)
              (div_nonneg (by norm_num) (le_of_lt hdpos))
          have h2 : (M - m) * (255 / (M - m)) = 255 := by field_simp
          linarith
        have hfl0 : (0:ℤ) ≤ ⌊(b - m) * (255 / (M - m))⌋ := Int.floor_nonneg.2 hw0
        have hq_ge : (b - m) * (255 / (M - m))
            ≤ ((min (Int.toNat (⌊(b - m) * (255 / (M - m))⌋ + 1)) 255 : ℕ) : ℚ) := by
          rcases le_or_lt (Int.toNat (⌊(b - m) * (255 / (M - m))⌋ + 1)) 255 with h | h
          · rw [min_eq_left h]
            have h5 : ((Int.toNat (⌊(b - m) * (255 / (M - m))⌋ + 1) : ℕ) : ℤ)
                = ⌊(b - m) * (255 / (M - m))⌋ + 1 := Int.toNat_of_nonneg (by omega)
            have h4 : ((Int.toNat (⌊(b - m) * (255 / (M - m))⌋ + 1) : ℕ) : ℚ)
                = ((⌊(b - m) * (255 / (M - m))⌋ : ℤ) : ℚ) + 1 := by
              exact_mod_cast h5
            rw [h4]
            have h6 := Int.lt_floor_add_one ((b - m) * (255 / (M - m)))
            linarith
          · rw [min_eq_right (le_of_lt h)]
            push_cast
            linarith
        have hfac : (0:ℚ) ≤ (M - m) * (1/255) := mul_nonneg (by linarith) (by norm_num)
        have hstep : (M - m) * (1/255) * ((b - m) * (255 / (M - m)))
            ≤ (M - m) * (1/255)
              * ((min (Int.toNat (⌊(b - m) * (255 / (M - m))⌋ + 1)) 255 : ℕ) : ℚ) :=
          mul_le_mul_of_nonneg_left hq_ge hfac
        have hwv : (M - m) * (1/255) * ((b - m) * (255 / (M - m))) = b - m := by
          field_simp
          ring
        linarith

/-! ### Claim C1 -/

/-- A child slot holding a finite box with `lower ≤ upper` componentwise. -/
def validSlot (n : Node) (i : Fin 4) : Prop :=
  (n.lower i).x.isFin = true ∧ (n.upper i).x.isFin = true ∧
  (n.lower i).y.isFin = true ∧ (n.upper i).y.isFin = true ∧
  (n.lower i).z.isFin = true ∧ (n.upper i).z.isFin = true ∧
  EF.le (n.lower i).x (n.upper i).x = true ∧
  EF.le (n.lower i).y (n.upper i).y = true ∧
  EF.le (n.lower i).z (n.upper i).z = true

/-- A child slot holding the invalid sentinel
(`lower = +inf`, `upper = -inf` on every axis). -/
def invalidSlot (n : Node) (i : Fin 4) : Prop :=
  (n.lower i).x = EF.pinf ∧ (n.lower i).y = EF.pinf ∧ (n.lower i).z = EF.pinf ∧
  (n.upper i).x = EF.ninf ∧ (n.upper i).y = EF.ninf ∧ (n.upper i).z = EF.ninf

/-- Componentwise box containment in the IEEE order: the outer lower corner
is `≤` the inner lower corner and the inner upper corner is `≤` the outer
upper corner on every axis. -/
def boxContains (outer inner : BBox) : Prop :=
  EF.le outer.lower.x inner.lower.x = true ∧
  EF.le outer.lower.y inner.lower.y = true ∧
  EF.le outer.lower.z inner.lower.z = true ∧
  EF.le inner.upper.x outer.upper.x = true ∧
  EF.le inner.upper.y outer.upper.y = true ∧
  EF.le inner.upper.z outer.upper.z = true

theorem slot_axis_ok (lx ux : EF)
    (hfl : lx.isFin = true) (hfu : ux.isFin = true) (hle : EF.le lx ux = true) :
    ∃ a b : ℚ, lx = EF.fin a ∧ ux = EF.fin b ∧ a ≤ b := by
  obtain ⟨a, ha⟩ := (EF.isFin_iff lx).1 hfl
  obtain ⟨b, hb⟩ := (EF.isFin_iff ux).1 hfu
  subst ha
  subst hb
  exact ⟨a, b, rfl, rfl, (EF.le_fin_fin a b).1 hle⟩

/-- Claim C1 (amended): for every node whose four child slots each hold
either a finite box with `lower ≤ upper` or the invalid sentinel, and
which has at least one finite child, the quantized node built by
`QuantizedNode::init` has `bounds(i)` containing the original `bounds(i)`
for every child `i` — componentwise, the decompressed lower corner is `≤`
the original lower corner and the decompressed upper corner is `≥` the
original upper corner.  This holds also when `diffXYZ` is 0 on an axis and
for sentinel children; the all-invalid node however is excluded (there the
decompressed corners are NaN, see the counterexample). -/
theorem claim_quantized_conservative (n : Node)
    (hw : ∀ i, invalidSlot n i ∨ validSlot n i)
    (hv : ∃ i, validSlot n i) :
    ∀ i, boxContains ((QuantizedNode.init n).bounds i) (n.bounds i) := by
  have hwx : ∀ i, ((n.lower i).x = EF.pinf ∧ (n.upper i).x = EF.ninf) ∨
      (∃ a b : ℚ, (n.lower i).x = EF.fin a ∧ (n.upper i).x = EF.fin b ∧ a ≤ b) := by
    intro i
    rcases hw i with hinv | hval
    · exact Or.inl ⟨hinv.1, hinv.2.2.2.1⟩
    · exact Or.inr (slot_axis_ok _ _ hval.1 hval.2.1 hval.2.2.2.2.2.2.1)
  have hwy : ∀ i, ((n.lower i).y = EF.pinf ∧ (n.upper i).y = EF.ninf) ∨
      (∃ a b : ℚ, (n.lower i).y = EF.fin a ∧ (n.upper i).y = EF.fin b ∧ a ≤ b) := by
    intro i
    rcases hw i with hinv | hval
    · exact Or.inl ⟨hinv.2.1, hinv.2.2.2.2.1⟩
    · exact Or.inr (slot_axis_ok _ _ hval.2.2.1 hval.2.2.2.1 hval.2.2.2.2.2.2.2.1)
  have hwz : ∀ i, ((n.lower i).z = EF.pinf ∧ (n.upper i).z = EF.ninf) ∨
      (∃ a b : ℚ, (n.lower i).z = EF.fin a ∧ (n.upper i).z = EF.fin b ∧ a ≤ b) := by
    intro i
    rcases hw i with hinv | hval
    · exact Or.inl ⟨hinv.2.2.1, hinv.2.2.2.2.2⟩
    · exact Or.inr (slot_axis_ok _ _ hval.2.2.2.2.1 hval.2.2.2.2.2.1 hval.2.2.2.2.2.2.2.2)
  have hvx : ∃ j, ∃ a b : ℚ,
      (n.lower j).x = EF.fin a ∧ (n.upper j).x = EF.fin b ∧ a ≤ b := by
    obtain ⟨j, hval⟩ := hv
    exact ⟨j, slot_axis_ok _ _ hval.1 hval.2.1 hval.2.2.2.2.2.2.1⟩
  have hvy : ∃ j, ∃ a b : ℚ,
      (n.lower j).y = EF.fin a ∧ (n.upper j).y = EF.fin b ∧ a ≤ b := by
    obtain ⟨j, hval⟩ := hv
    exact ⟨j, slot_axis_ok _ _ hval.2.2.1 hval.2.2.2.1 hval.2.2.2.2.2.2.2.1⟩
  have hvz : ∃ j, ∃ a b : ℚ,
      (n.lower j).z = EF.fin a ∧ (n.upper j).z = EF.fin b ∧ a ≤ b := by
    obtain ⟨j, hval⟩ := hv
    exact ⟨j, slot_axis_ok _ _ hval.2.2.2.2.1 hval.2.2.2.2.2.1 hval.2.2.2.2.2.2.2.2⟩
  intro i
  have hx := axis_conservative (fun j => (n.lower j).x) (fun j => (n.upper j).x) hwx hvx i
  have hy := axis_conservative (fun j => (n.lower j).y) (fun j => (n.upper j).y) hwy hvy i
  have hz := axis_conservative (fun j => (n.lower j).z) (fun j => (n.upper j).z) hwz hvz i
  exact ⟨hx.1, hy.1, hz.1, hx.2, hy.2, hz.2⟩

/-- The node whose four children were all written by `setInvalid`. -/
def allInvalidNode : Node :=
  Node.setInvalid (Node.setInvalid (Node.setInvalid (Node.setInvalid zeroNode 0) 1) 2) 3

/-- Claim C1 (counterexample to the claim as stated): on the node all of
whose children are the invalid sentinel, the reduction gives
`minXYZ = +inf`, `maxXYZ = -inf`, hence `start = +inf` and
`diff = -inf`, and the decompressed lower corner is `+inf + (-inf)*q`,
i.e. NaN; the IEEE comparison "decompressed lower ≤ original lower" is
then false even against the sentinel `+inf`. -/
theorem claim_quantized_conservative_cex :
    (∀ i, invalidSlot allInvalidNode i) ∧
    EF.le ((QuantizedNode.init allInvalidNode).bounds 0).lower.x
      ((allInvalidNode.bounds 0).lower.x) = false := by
  constructor
  · have h4 : ∀ j : Fin 4, j = 0 ∨ j = 1 ∨ j = 2 ∨ j = 3 := by decide
    intro i
    rcases h4 i with rfl | rfl | rfl | rfl <;> exact ⟨rfl, rfl, rfl, rfl, rfl, rfl⟩
  · norm_num [QuantizedNode.init, QuantizedNode.bounds, decompLo, axisInit,
      allInvalidNode, zeroNode, Node.setInvalid, Node.bounds, Node.child,
      EF.fmin, EF.fmax, EF.lt, EF.sub, EF.neg, EF.add, EF.mul, EF.div, EF.feq,
      EF.toByte, EF.le]

/-- A node with one finite child (the unit box) and three invalid children. -/
def witNode : Node :=
  Node.setInvalid (Node.setInvalid (Node.setInvalid
    (Node.setBounds zeroNode 0 unitBox) 1) 2) 3

theorem witNode_valid0 : validSlot witNode 0 :=
  ⟨rfl, rfl, rfl, rfl, rfl, rfl, by decide, by decide, by decide⟩

theorem witNode_ok : ∀ i, invalidSlot witNode i ∨ validSlot witNode i := by
  have h4 : ∀ j : Fin 4, j = 0 ∨ j = 1 ∨ j = 2 ∨ j = 3 := by decide
  intro i
  rcases h4 i with rfl | rfl | rfl | rfl
  · exact Or.inr witNode_valid0
  · exact Or.inl ⟨rfl, rfl, rfl, rfl, rfl, rfl⟩
  · exact Or.inl ⟨rfl, rfl, rfl, rfl, rfl, rfl⟩
  · exact Or.inl ⟨rfl, rfl, rfl, rfl, rfl, rfl⟩

theorem claim_quantized_conservative_witness :
    (∀ i, invalidSlot witNode i ∨ validSlot witNode i) ∧
    (∃ i, validSlot witNode i) ∧
    (∀ i, boxContains ((QuantizedNode.init witNode).bounds i) (witNode.bounds i)) :=
  ⟨witNode_ok, ⟨0, witNode_valid0⟩,
   claim_quantized_conservative witNode witNode_ok ⟨0, witNode_valid0⟩⟩
